import Mathlib

/-!
# pinout.h : pin map and temperature thresholds

A shallow embedding of `src/pinout.h`.  The header holds five object-like
macros that expand to pin numbers, one macro that expands to the sensor tag,
six `const int` LCD pins and three `const byte` temperature thresholds.

* integer literals and `int` objects are `Int`;
* `byte` objects are `Nat`, obtained from the initialiser by reduction
  modulo `2 ^ 8`;
* the header itself is also kept as the list of its declarations, in source
  order, so that translating it (once, or twice in a row) can be stated.

The header includes nothing and declares no type, while lines 21 to 23 use the
type name `byte`: a translation unit has to declare `byte` before the header
is included into it.  The state of a translation unit therefore records the
declared type names next to the macros and the objects.
-/

namespace Pinout

/-! ## Machine integers -/

/-- Conversion of an integer value to `byte` (8-bit unsigned): the value
modulo `2 ^ 8`. -/
def toByte (n : Int) : Nat := (n % 2 ^ 8).toNat

/-- Conversion of an integer value to a two's-complement `int` of `w` bits:
the representative of `n` modulo `2 ^ w` in `[-2 ^ (w-1), 2 ^ (w-1))`. -/
def toInt (w : Nat) (n : Int) : Int := (n + 2 ^ (w - 1)) % 2 ^ w - 2 ^ (w - 1)

/-! ## The constants, line by line -/

/-- Macro `#define LED_RED_PIN 10`: an `int` literal. -/
def LED_RED_PIN : Int := 10

/-- Macro `#define LED_GREEN_PIN 8`: an `int` literal. -/
def LED_GREEN_PIN : Int := 8

/-- Macro `#define LED_YELLOW_PIN 9`: an `int` literal. -/
def LED_YELLOW_PIN : Int := 9

/-- Macro `#define DHT11_PIN 13`: an `int` literal. -/
def DHT11_PIN : Int := 13

/-- Macro `#define BUZZER_PIN 7`: an `int` literal. -/
def BUZZER_PIN : Int := 7

/-- Object `const int rs = 12` of line 11. -/
def rs : Int := 12

/-- Object `const int en = 11` of line 11. -/
def en : Int := 11

/-- Object `const int d4 = 5` of line 11. -/
def d4 : Int := 5

/-- Object `const int d5 = 4` of line 11. -/
def d5 : Int := 4

/-- Object `const int d6 = 3` of line 11. -/
def d6 : Int := 3

/-- Object `const int d7 = 2` of line 11. -/
def d7 : Int := 2

/-- Object `const byte TH_TEMP_LOW = 20;`: the initialiser converted to `byte`. -/
def TH_TEMP_LOW : Nat := toByte 20

/-- Object `const byte TH_TEMP_NORM = 30;`: the initialiser converted to `byte`. -/
def TH_TEMP_NORM : Nat := toByte 30

/-- Object `const byte TH_TEMP_HIGH = 40;`: the initialiser converted to `byte`. -/
def TH_TEMP_HIGH : Nat := toByte 40

/-! ## The pin table -/

/-- The eleven names of the header that stand for a pin. -/
inductive PinName
  | LED_RED_PIN | LED_GREEN_PIN | LED_YELLOW_PIN | DHT11_PIN | BUZZER_PIN
  | rs | en | d4 | d5 | d6 | d7
  deriving DecidableEq, Repr

/-- The pin number a name stands for. -/
def pinOf : PinName → Int
  | .LED_RED_PIN => LED_RED_PIN
  | .LED_GREEN_PIN => LED_GREEN_PIN
  | .LED_YELLOW_PIN => LED_YELLOW_PIN
  | .DHT11_PIN => DHT11_PIN
  | .BUZZER_PIN => BUZZER_PIN
  | .rs => rs
  | .en => en
  | .d4 => d4
  | .d5 => d5
  | .d6 => d6
  | .d7 => d7

/-- The three names of the header that stand for a threshold. -/
inductive ThresholdName
  | TH_TEMP_LOW | TH_TEMP_NORM | TH_TEMP_HIGH
  deriving DecidableEq, Repr

/-- The threshold a name stands for. -/
def thresholdOf : ThresholdName → Nat
  | .TH_TEMP_LOW => TH_TEMP_LOW
  | .TH_TEMP_NORM => TH_TEMP_NORM
  | .TH_TEMP_HIGH => TH_TEMP_HIGH

/-- Modelled from the spec: the board's valid digital-pin range, which the
header does not declare; the digital pins of an Uno-class board are numbered
`0` to `13`. -/
def validDigitalPin (p : Int) : Prop := 0 ≤ p ∧ p ≤ 13

instance (p : Int) : Decidable (validDigitalPin p) := by
  unfold validDigitalPin; infer_instance

/-- The four temperature bands the thresholds cut the byte range into:
`[0, LOW)`, `[LOW, NORM)`, `[NORM, HIGH)` and `[HIGH, 255]`. -/
def inBand : Fin 4 → Nat → Prop
  | 0, t => 0 ≤ t ∧ t < TH_TEMP_LOW
  | 1, t => TH_TEMP_LOW ≤ t ∧ t < TH_TEMP_NORM
  | 2, t => TH_TEMP_NORM ≤ t ∧ t < TH_TEMP_HIGH
  | 3, t => TH_TEMP_HIGH ≤ t ∧ t ≤ 255

/-! ## The header as a list of declarations -/

/-- The identifiers that occur in the header: the fifteen names it introduces
and `DHT11`, the sensor tag of the DHT driver that `DHTTYPE` expands to. -/
inductive Ident
  | LED_RED_PIN | LED_GREEN_PIN | LED_YELLOW_PIN | DHT11_PIN | DHTTYPE | BUZZER_PIN
  | rs | en | d4 | d5 | d6 | d7
  | TH_TEMP_LOW | TH_TEMP_NORM | TH_TEMP_HIGH
  | DHT11
  deriving DecidableEq, Repr

/-- A token of a macro's replacement list. -/
inductive Tok
  | num (n : Int)
  | ident (x : Ident)
  deriving DecidableEq, Repr

/-- The two object types the header uses: `int` is a keyword of the language,
`byte` is a type name that some earlier declaration has to introduce. -/
inductive CType
  | int
  | byte
  deriving DecidableEq, Repr

/-- A declaration of the header: an object-like macro with its replacement
list, or the definition of a constant object with its initialiser. -/
inductive Decl
  | define (name : Ident) (body : List Tok)
  | constDef (ty : CType) (name : Ident) (init : Int)
  deriving DecidableEq, Repr

/-- The `#define` lines of the header, in source order (lines 1 to 9). -/
def headerMacros : List Decl :=
  [ .define .LED_RED_PIN [.num 10],
    .define .LED_GREEN_PIN [.num 8],
    .define .LED_YELLOW_PIN [.num 9],
    .define .DHT11_PIN [.num 13],
    .define .DHTTYPE [.ident .DHT11],
    .define .BUZZER_PIN [.num 7] ]

/-- The object definitions of the header, in source order (lines 11 and 21
to 23); the block comment of lines 12 to 19 declares nothing. -/
def headerObjects : List Decl :=
  [ .constDef .int .rs 12,
    .constDef .int .en 11,
    .constDef .int .d4 5,
    .constDef .int .d5 4,
    .constDef .int .d6 3,
    .constDef .int .d7 2,
    .constDef .byte .TH_TEMP_LOW 20,
    .constDef .byte .TH_TEMP_NORM 30,
    .constDef .byte .TH_TEMP_HIGH 40 ]

/-- The whole header. It has no include guard: its text is these
declarations and nothing else. -/
def header : List Decl := headerMacros ++ headerObjects

/-- What a translation unit knows after some declarations: the type names
declared so far, the macros with their replacement lists, and the objects
with their type and value. -/
structure Env where
  types : List CType
  macros : List (Ident × List Tok)
  vars : List (Ident × CType × Int)
  deriving DecidableEq, Repr

/-- The translation unit before anything is declared: no type name, no macro,
no object. The name `byte` is unknown in it. -/
def Env.empty : Env := ⟨[], [], []⟩

/-- Whether a type can be used in the translation unit: `int` always, a type
name only once it has been declared. -/
def Env.knowsType (env : Env) : CType → Bool
  | .int => true
  | .byte => env.types.contains .byte

/-- The reasons a declaration is rejected: its type name is not declared, its
declarator is no longer an identifier after macro replacement, or the object
it names is already defined. -/
inductive Err
  | unknownType (ty : CType)
  | badDeclarator (name : Ident)
  | redefinition (name : Ident)
  deriving DecidableEq, Repr

/-- The value an object of type `ty` holds after initialisation with `n`,
on a target whose `int` has `w` bits. -/
def CType.store (w : Nat) : CType → Int → Int
  | .int, n => toInt w n
  | .byte, n => (toByte n : Int)

/-- Macro replacement of the identifier `x` in the place of a declarator.
A name that is no macro, or that is being replaced already (`seen`), stays;
a macro whose replacement list is one identifier is replaced by it, and the
result is scanned again; any other replacement list (empty, a number, several
tokens) leaves no identifier to declare, which is `none`. The first argument
after the macros bounds the number of replacements; `none` when it is used
up. -/
def expandName (macros : List (Ident × List Tok)) : Nat → List Ident → Ident → Option Ident
  | 0, _, _ => none
  | fuel + 1, seen, x =>
    if x ∈ seen then some x
    else
      match macros.lookup x with
      | none => some x
      | some [.ident y] => expandName macros fuel (x :: seen) y
      | some _ => none

/-- The macros after `#define x body`: a new macro is added at the end, the
replacement list of an existing one is overwritten (g++ warns about a list
that differs and goes on with the new one). -/
def recordDefine (macros : List (Ident × List Tok)) (x : Ident) (body : List Tok) :
    List (Ident × List Tok) :=
  match macros.lookup x with
  | none => macros ++ [(x, body)]
  | some _ => macros.map (fun m => if m.1 = x then (x, body) else m)

/-- One declaration processed by the C++ front end (g++).
A `#define` is always accepted. The definition of an object is rejected when
its type name is not declared, when macro replacement leaves no identifier to
declare, and when the identifier it declares is an object of the unit already
(a second definition in the same scope). -/
def processDecl (w : Nat) (env : Env) : Decl → Except Err Env
  | .define x body => .ok { env with macros := recordDefine env.macros x body }
  | .constDef ty x init =>
    if env.knowsType ty then
      match expandName env.macros (env.macros.length + 1) [] x with
      | none => .error (.badDeclarator x)
      | some y =>
        match env.vars.lookup y with
        | none => .ok { env with vars := env.vars ++ [(y, ty, ty.store w init)] }
        | some _ => .error (.redefinition y)
    else .error (.unknownType ty)

/-- A list of declarations processed in order, stopping at the first one
that is rejected. -/
def processAll (w : Nat) (env : Env) : List Decl → Except Err Env
  | [] => .ok env
  | d :: ds =>
    match processDecl w env d with
    | .ok env1 => processAll w env1 ds
    | .error e => .error e

/-- The header included into a translation unit in state `env`. -/
def includeHeader (w : Nat) (env : Env) : Except Err Env :=
  processAll w env header

/-- The number of macros that are not being replaced already. -/
def unseen (macros : List (Ident × List Tok)) (seen : List Ident) : Nat :=
  (macros.filter (fun m => decide (m.1 ∉ seen))).length

/-- A declaration whose initialiser, if it has one, fits a 16-bit `int`. -/
def smallInit : Decl → Prop
  | .define _ _ => True
  | .constDef _ _ init => -32768 ≤ init ∧ init < 32768

instance (d : Decl) : Decidable (smallInit d) := by
  cases d <;> unfold smallInit <;> infer_instance

/-! ## Helper lemmas -/

theorem two_pow_ge (w : Nat) (hw : 16 ≤ w) : (32768 : Int) ≤ 2 ^ (w - 1) := by
  have h : (2 : Int) ^ 15 ≤ 2 ^ (w - 1) :=
    pow_le_pow_right₀ (by norm_num) (by omega)
  norm_num at h
  exact h

theorem toInt_of_small (w : Nat) (hw : 16 ≤ w) (n : Int)
    (h0 : -32768 ≤ n) (h1 : n < 32768) : toInt w n = n := by
  have hP := two_pow_ge w hw
  have h2 : (2 : Int) ^ w = 2 * 2 ^ (w - 1) := by
    have : w = (w - 1) + 1 := by omega
    conv_lhs => rw [this]
    rw [pow_succ]; ring
  unfold toInt
  rw [h2, Int.emod_eq_of_lt (by omega) (by omega)]
  ring

theorem unseen_le (macros : List (Ident × List Tok)) (seen : List Ident) (x : Ident) :
    unseen macros (x :: seen) ≤ unseen macros seen := by
  induction macros with
  | nil => simp [unseen]
  | cons m tl ih =>
    simp only [unseen, List.filter_cons] at ih ⊢
    by_cases h1 : m.1 ∈ seen
    · have h2 : m.1 ∈ x :: seen := List.mem_cons_of_mem x h1
      simp only [h1, h2, not_true_eq_false, decide_False, Bool.false_eq_true, if_false]
      exact ih
    · by_cases h2 : m.1 ∈ x :: seen
      · simp only [h1, h2, not_true_eq_false, not_false_eq_true, decide_False, decide_True,
          Bool.false_eq_true, if_false, if_true, List.length_cons]
        omega
      · simp only [h1, h2, not_false_eq_true, decide_True, if_true, List.length_cons]
        omega

theorem unseen_lt (macros : List (Ident × List Tok)) (seen : List Ident) (x : Ident)
    (body : List Tok) (hx : x ∉ seen) (hl : macros.lookup x = some body) :
    unseen macros (x :: seen) < unseen macros seen := by
  induction macros with
  | nil => simp at hl
  | cons m tl ih =>
    obtain ⟨k, v⟩ := m
    have htl := unseen_le tl seen x
    simp only [unseen, List.filter_cons] at ih htl ⊢
    by_cases hk : x = k
    · subst hk
      have h2 : x ∈ x :: seen := List.mem_cons_self x seen
      simp only [hx, h2, not_true_eq_false, not_false_eq_true, decide_False, decide_True,
        Bool.false_eq_true, if_false, if_true, List.length_cons]
      omega
    · have hl2 : tl.lookup x = some body := by
        rw [List.lookup_cons] at hl
        have hb : (x == k) = false := by simpa using hk
        rw [hb] at hl
        exact hl
      have ih2 := ih hl2
      by_cases h1 : k ∈ seen
      · have h2 : k ∈ x :: seen := List.mem_cons_of_mem x h1
        simp only [h1, h2, not_true_eq_false, decide_False, Bool.false_eq_true, if_false]
        exact ih2
      · have h2 : k ∉ x :: seen := by
          intro hmem
          rcases List.mem_cons.mp hmem with h | h
          · exact hk h.symm
          · exact h1 h
        simp only [h1, h2, not_false_eq_true, decide_True, if_true, List.length_cons]
        omega

/-- Macro replacement never runs out of steps: once the bound exceeds the
number of macros not yet being replaced, a larger bound gives the same
result. -/
theorem expandName_fuel (macros : List (Ident × List Tok)) (fuel k : Nat) :
    ∀ (seen : List Ident) (x : Ident), unseen macros seen < fuel →
      expandName macros (fuel + k) seen x = expandName macros fuel seen x := by
  induction fuel with
  | zero => intro seen x h; omega
  | succ n ih =>
    intro seen x h
    have e : n + 1 + k = (n + k) + 1 := by omega
    rw [e]
    simp only [expandName]
    by_cases hx : x ∈ seen
    · simp only [hx, if_true]
    · simp only [hx, if_false]
      cases hl : macros.lookup x with
      | none => rfl
      | some body =>
        have hlt := unseen_lt macros seen x body hx hl
        match body with
        | [] => rfl
        | [.num _] => rfl
        | [.ident y] => exact ih (x :: seen) y (by omega)
        | a :: _ :: _ => cases a <;> rfl

theorem unseen_nil_le (macros : List (Ident × List Tok)) :
    unseen macros [] ≤ macros.length := by
  unfold unseen
  exact List.length_filter_le _ _

/-- The bound `processDecl` passes to `expandName` is enough: any larger one
gives the same identifier. -/
theorem expandName_enough (macros : List (Ident × List Tok)) (k : Nat) (x : Ident) :
    expandName macros (macros.length + 1 + k) [] x =
      expandName macros (macros.length + 1) [] x :=
  expandName_fuel macros (macros.length + 1) k [] x
    (Nat.lt_succ_of_le (unseen_nil_le macros))

theorem store_of_small (w : Nat) (hw : 16 ≤ w) (ty : CType) (n : Int)
    (h0 : -32768 ≤ n) (h1 : n < 32768) : ty.store w n = ty.store 16 n := by
  cases ty with
  | int =>
    simp only [CType.store]
    rw [toInt_of_small w hw n h0 h1, toInt_of_small 16 (le_refl 16) n h0 h1]
  | byte => rfl

theorem processDecl_width (w : Nat) (hw : 16 ≤ w) (env : Env) (d : Decl)
    (hd : smallInit d) : processDecl w env d = processDecl 16 env d := by
  cases d with
  | define x body => rfl
  | constDef ty x init =>
    simp only [processDecl]
    rw [store_of_small w hw ty init hd.1 hd.2]

theorem processAll_width (w : Nat) (hw : 16 ≤ w) (ds : List Decl)
    (hds : ∀ d ∈ ds, smallInit d) (env : Env) :
    processAll w env ds = processAll 16 env ds := by
  induction ds generalizing env with
  | nil => rfl
  | cons d ds ih =>
    have hd : smallInit d := hds d (List.mem_cons_self d ds)
    have htl : ∀ e ∈ ds, smallInit e := fun e he => hds e (List.mem_cons_of_mem d he)
    simp only [processAll]
    rw [processDecl_width w hw env d hd]
    cases processDecl 16 env d with
    | error e => rfl
    | ok env1 => exact ih htl env1

theorem header_small : ∀ d ∈ header, smallInit d := by decide

theorem includeHeader_empty (w : Nat) (hw : 16 ≤ w) :
    includeHeader w Env.empty = .error (.unknownType .byte) := by
  unfold includeHeader
  rw [processAll_width w hw header header_small]
  rfl

theorem TH_TEMP_LOW_eq : TH_TEMP_LOW = 20 := by decide

theorem TH_TEMP_NORM_eq : TH_TEMP_NORM = 30 := by decide

theorem TH_TEMP_HIGH_eq : TH_TEMP_HIGH = 40 := by decide

/-- C1: the thresholds are 20, 30 and 40, and strictly increasing. -/
theorem thresholds_values_increasing :
    TH_TEMP_LOW = 20 ∧ TH_TEMP_NORM = 30 ∧ TH_TEMP_HIGH = 40 ∧
      TH_TEMP_LOW < TH_TEMP_NORM ∧ TH_TEMP_NORM < TH_TEMP_HIGH := by
  decide

/-! ## The pins -/

/-- C2: two different pin names of the header never stand for the same pin
number. -/
theorem pins_distinct (a b : PinName) (h : a ≠ b) : pinOf a ≠ pinOf b := by
  cases a <;> cases b <;> first | exact absurd rfl h | decide

theorem pins_distinct_witness :
    PinName.LED_RED_PIN ≠ PinName.rs ∧ pinOf .LED_RED_PIN ≠ pinOf .rs :=
  ⟨by decide, pins_distinct .LED_RED_PIN .rs (by decide)⟩

/-- C3: every pin constant of the header is a digital pin of the board, 0 to
13, and so none of them is negative, the signed `int` ones included. -/
theorem pins_in_range (p : PinName) :
    validDigitalPin (pinOf p) ∧ ¬ pinOf p < 0 := by
  cases p <;> decide

/-- C7: the pin numbers in use are exactly 2, 3, 4, 5, 7, 8, 9, 10, 11, 12
and 13; pins 0 and 1 are not used, and of the pins 2 to 13 only pin 6 is
free. -/
theorem pins_used :
    (∀ n : Int, (∃ p, pinOf p = n) ↔ n ∈ [2, 3, 4, 5, 7, 8, 9, 10, 11, 12, 13]) ∧
      (∀ p, pinOf p ≠ 0 ∧ pinOf p ≠ 1) ∧
      (∀ n : Int, 2 ≤ n → n ≤ 13 → ((∀ p, pinOf p ≠ n) ↔ n = 6)) := by
  have used : ∀ n : Int, (∃ p, pinOf p = n) ↔
      n ∈ [2, 3, 4, 5, 7, 8, 9, 10, 11, 12, 13] := by
    intro n
    constructor
    · rintro ⟨p, rfl⟩
      cases p <;> decide
    · intro hn
      simp only [List.mem_cons, List.mem_singleton, List.not_mem_nil, or_false] at hn
      rcases hn with h | h | h | h | h | h | h | h | h | h | h <;> subst h
      · exact ⟨.d7, rfl⟩
      · exact ⟨.d6, rfl⟩
      · exact ⟨.d5, rfl⟩
      · exact ⟨.d4, rfl⟩
      · exact ⟨.BUZZER_PIN, rfl⟩
      · exact ⟨.LED_GREEN_PIN, rfl⟩
      · exact ⟨.LED_YELLOW_PIN, rfl⟩
      · exact ⟨.LED_RED_PIN, rfl⟩
      · exact ⟨.en, rfl⟩
      · exact ⟨.rs, rfl⟩
      · exact ⟨.DHT11_PIN, rfl⟩
  refine ⟨used, ?_, ?_⟩
  · intro p
    cases p <;> decide
  · intro n h2 h13
    constructor
    · intro hfree
      by_contra h6
      have hmem : n ∈ [2, 3, 4, 5, 7, 8, 9, 10, 11, 12, 13] := by
        simp only [List.mem_cons, List.mem_singleton, List.not_mem_nil, or_false]
        omega
      obtain ⟨p, hp⟩ := (used n).mpr hmem
      exact hfree p hp
    · rintro rfl p
      cases p <;> decide

/-! ## The temperature bands -/

/-- C4: 25 lies between the low and the normal threshold, 35 between the
normal and the high one, 45 above the high one; the four bands are non-empty,
no reading lies in two of them, and every byte reading lies in exactly one. -/
theorem temperature_bands (t : Nat) (ht : t ≤ 255) :
    (TH_TEMP_LOW ≤ 25 ∧ 25 < TH_TEMP_NORM) ∧
      (TH_TEMP_NORM ≤ 35 ∧ 35 < TH_TEMP_HIGH) ∧
      45 > TH_TEMP_HIGH ∧
      inBand 1 25 ∧ inBand 2 35 ∧ inBand 3 45 ∧
      (∀ k, ∃ r, r ≤ 255 ∧ inBand k r) ∧
      (∀ i j r, i ≠ j → ¬ (inBand i r ∧ inBand j r)) ∧
      (∃! k, inBand k t) := by
  have hL := TH_TEMP_LOW_eq
  have hN := TH_TEMP_NORM_eq
  have hH := TH_TEMP_HIGH_eq
  refine ⟨by decide, by decide, by decide, ?_, ?_, ?_, ?_, ?_, ?_⟩
  · simp only [inBand, hL, hN]; omega
  · simp only [inBand, hN, hH]; omega
  · simp only [inBand, hH]; omega
  · intro k
    fin_cases k
    · exact ⟨0, by omega, by simp only [inBand, hL]; omega⟩
    · exact ⟨20, by omega, by simp only [inBand, hL, hN]; omega⟩
    · exact ⟨30, by omega, by simp only [inBand, hN, hH]; omega⟩
    · exact ⟨255, by omega, by simp only [inBand, hH]; omega⟩
  · intro i j r hij
    fin_cases i <;> fin_cases j <;>
      first
        | exact absurd rfl hij
        | (simp only [inBand, hL, hN, hH]; omega)
  · by_cases h1 : t < 20
    · refine ⟨0, by simp only [inBand, hL]; omega, ?_⟩
      intro k hk
      fin_cases k <;> first | rfl | (simp only [inBand, hL, hN, hH] at hk; omega)
    · by_cases h2 : t < 30
      · refine ⟨1, by simp only [inBand, hL, hN]; omega, ?_⟩
        intro k hk
        fin_cases k <;> first | rfl | (simp only [inBand, hL, hN, hH] at hk; omega)
      · by_cases h3 : t < 40
        · refine ⟨2, by simp only [inBand, hN, hH]; omega, ?_⟩
          intro k hk
          fin_cases k <;> first | rfl | (simp only [inBand, hL, hN, hH] at hk; omega)
        · refine ⟨3, by simp only [inBand, hH]; omega, ?_⟩
          intro k hk
          fin_cases k <;> first | rfl | (simp only [inBand, hL, hN, hH] at hk; omega)

theorem temperature_bands_witness :
    (25 : Nat) ≤ 255 ∧ ∃! k, inBand k 25 :=
  ⟨by decide, (temperature_bands 25 (by decide)).2.2.2.2.2.2.2.2⟩

/-! ## Integer widths -/

/-- C6: every pin and every threshold lies in 0..255 and equals itself modulo
`2 ^ 8`; a pin stored in a `byte` and a threshold stored in an `int` keep
their value, the pins stay distinct and the thresholds stay ordered. -/
theorem widths_preserve_values (w : Nat) (hw : 16 ≤ w) :
    (∀ p, 0 ≤ pinOf p ∧ pinOf p ≤ 255 ∧ pinOf p % 2 ^ 8 = pinOf p ∧
        (toByte (pinOf p) : Int) = pinOf p) ∧
      (∀ t, 0 ≤ thresholdOf t ∧ thresholdOf t ≤ 255 ∧
        thresholdOf t % 2 ^ 8 = thresholdOf t ∧
        toInt w (thresholdOf t) = thresholdOf t) ∧
      (∀ a b, a ≠ b → toByte (pinOf a) ≠ toByte (pinOf b)) ∧
      toInt w TH_TEMP_LOW < toInt w TH_TEMP_NORM ∧
      toInt w TH_TEMP_NORM < toInt w TH_TEMP_HIGH := by
  have hint : ∀ t, toInt w (thresholdOf t) = thresholdOf t := by
    intro t
    apply toInt_of_small w hw
    · cases t <;> decide
    · cases t <;> decide
  refine ⟨?_, ?_, ?_, ?_, ?_⟩
  · intro p
    cases p <;> decide
  · intro t
    refine ⟨Nat.zero_le _, ?_, ?_, hint t⟩
    · cases t <;> decide
    · cases t <;> decide
  · intro a b hab
    cases a <;> cases b <;> first | exact absurd rfl hab | decide
  · have h1 := hint .TH_TEMP_LOW
    have h2 := hint .TH_TEMP_NORM
    simp only [thresholdOf] at h1 h2
    rw [h1, h2]
    decide
  · have h2 := hint .TH_TEMP_NORM
    have h3 := hint .TH_TEMP_HIGH
    simp only [thresholdOf] at h2 h3
    rw [h2, h3]
    decide

theorem widths_preserve_values_witness :
    (16 : Nat) ≤ 16 ∧ toInt 16 TH_TEMP_LOW < toInt 16 TH_TEMP_NORM ∧
      toInt 16 TH_TEMP_NORM < toInt 16 TH_TEMP_HIGH :=
  ⟨by decide, (widths_preserve_values 16 (by decide)).2.2.2⟩

/-! ## Including the header -/

end Pinout
